import Mathlib

/-!
Verification of the gRPC resolver of `pkg/discovery/grpcresolver/grpc_resolver.go`
(jaeger). The development embeds, as executable Lean definitions:

* the FNV-1 32-bit hash (`hash/fnv`, `fnv.New32`) used to score addresses,
  with machine words represented as `Nat` reduced modulo `2 ^ 32`;
* `hashAddr`, which resets the shared `hash.Hash32`, writes the salt (`key`)
  and then the address (`node`), and returns the 32-bit digest together with
  the hasher state left behind;
* `rendezvousHash`, which scores every address, sorts ascending by score
  (`sort.Sort(hostScores)`, modelled by the stable `List.insertionSort`; Go's
  `sort.Sort` coincides with it only for slices of at most six elements, and
  `goSortSmall` embeds the algorithm Go actually runs on slices of at most
  twelve — the tie-order results below are settled against it), and then
  fills a `connectionPerHost`-sized output by indexing the sorted slice —
  indexing past the end is a Go runtime panic, modelled by `Option.none`;
* the resolver lifecycle (`New`/`Build`/`Close`) as explicit state passing,
  with Go channel close-of-closed faults modelled by `Option.none`;
* the watcher/closer interleaving as a small-step transition relation, used
  to prove the shutdown-join property of `Close`.

Strings are modelled as byte sequences (`List Nat`, each byte reduced
modulo 256 where consumed).
-/

/-- Byte strings (Go `string` / `[]byte`) as lists of byte values. -/
abbrev Bytes := List Nat

/-- Go errors, represented opaquely. -/
abbrev GoErr := Nat

/-- Bitwise exclusive or of the low `k` bits of two naturals; `xorBits 32`
is exactly Go's `uint32` `^` on values below `2 ^ 32`. -/
def xorBits : Nat → Nat → Nat → Nat
  | 0, _, _ => 0
  | k + 1, a, b => (if a % 2 = b % 2 then 0 else 1) + 2 * xorBits k (a / 2) (b / 2)

/-- Go `uint32` exclusive or. -/
def xor32 (a b : Nat) : Nat := xorBits 32 a b

/-- `prime32` of `hash/fnv`. -/
def fnvPrime : Nat := 16777619

/-- `offset32` of `hash/fnv`: the initial state of `fnv.New32()`. -/
def fnvOffset : Nat := 2166136261

/-- One `Write` call of the FNV-1 32-bit hasher (`hash *= prime32;
hash ^= sum32(c)` for each byte `c`), folded over the data. -/
def fnvWrite (h : Nat) (data : Bytes) : Nat :=
  data.foldl (fun acc c => xor32 (acc * fnvPrime % 2 ^ 32) (c % 256)) h

/-- The FNV-1 32-bit digest of a byte string, starting from `offset32`. -/
def fnv1 (data : Bytes) : Nat := fnvWrite fnvOffset data

/-- The state of the resolver's shared `hash.Hash32` (`fnv.sum32`). -/
structure Hasher where
  state : Nat
deriving DecidableEq

/-- `Reset`: the hasher state returns to `offset32` regardless of its
previous value. -/
def Hasher.reset (_ : Hasher) : Hasher := ⟨fnvOffset⟩

/-- `Write`: absorb a byte string into the hasher state. -/
def Hasher.write (h : Hasher) (data : Bytes) : Hasher := ⟨fnvWrite h.state data⟩

/-- `Sum32`: read the current 32-bit digest. -/
def Hasher.sum32 (h : Hasher) : Nat := h.state

/-- The hasher as initialised by `New` (`fnv.New32()`). -/
def newHasher : Hasher := ⟨fnvOffset⟩

/-- `hashAddr(hasher, node, key)`: reset the shared hasher, write the salt
(`key`) first, then the address (`node`), and return `Sum32()`.  The second
component is the state the shared hasher is left in. -/
def hashAddr (hasher : Hasher) (node key : Bytes) : Nat × Hasher :=
  let h1 := (hasher.reset).write key
  let h2 := h1.write node
  (h2.sum32, h2)

/-- The `hostScore` pair of `grpc_resolver.go`. -/
structure hostScore where
  address : Bytes
  score : Nat
deriving DecidableEq

/-- `hostScores.Less(i, j) = s[i].score < s[j].score`; `sort.Sort` arranges
the slice ascending with respect to the corresponding `≤`. -/
def scoreLE (p q : hostScore) : Prop := p.score ≤ q.score

instance : DecidableRel scoreLE := fun p q => inferInstanceAs (Decidable (p.score ≤ q.score))

instance : IsTotal hostScore scoreLE := ⟨fun p q => Nat.le_total p.score q.score⟩

instance : IsTrans hostScore scoreLE := ⟨fun _ _ _ h h' => Nat.le_trans h h'⟩

instance : IsRefl hostScore scoreLE := ⟨fun p => Nat.le_refl p.score⟩

/-- The output-filling loop of `rendezvousHash`:
`addressesPerHost := make([]string, connectionPerHost)` followed by
`addressesPerHost[i] = hosts[i].address` for `i < connectionPerHost`.
Reading `hosts[i]` past the end of the slice is a Go runtime panic
(index out of range), modelled by `none`. -/
def takeAddresses : List hostScore → Nat → Option (List Bytes)
  | _, 0 => some []
  | [], _ + 1 => none
  | h :: t, k + 1 => (takeAddresses t k).map (h.address :: ·)

/-- The body of the scoring loop of `rendezvousHash`: append
`hostScore{address, hashAddr(hasher, address, salt)}` and keep the mutated
hasher state. -/
def scoreStep (salt : Bytes) (acc : List hostScore × Hasher) (address : Bytes) :
    List hostScore × Hasher :=
  (acc.1 ++ [⟨address, (hashAddr acc.2 address salt).1⟩], (hashAddr acc.2 address salt).2)

/-- `rendezvousHash(addresses, salt, hasher, connectionPerHost)`: score every
address with the shared hasher, `sort.Sort` the scores ascending, and fill a
`connectionPerHost`-sized output from the front of the sorted slice.  The
first component is the output (`none` = runtime panic), the second the state
the shared hasher was left in.  `sort.Sort` is modelled by the stable
`List.insertionSort`; the Go implementation is stable only for slices of at
most six elements (see `goSortSmall` below for the algorithm it actually
runs on small slices), so the theorems proved about this definition either
do not depend on the order of equal scores (sortedness, permutation, length,
faulting), or carry a collision-freedom hypothesis under which every correct
sort produces the same, unique result, or evaluate it on slices of at most
six elements, where the model agrees with Go exactly. -/
def rendezvousHash (addresses : List Bytes) (salt : Bytes) (hasher : Hasher)
    (connectionPerHost : Nat) : Option (List Bytes) × Hasher :=
  let acc := addresses.foldl (scoreStep salt) ([], hasher)
  (takeAddresses (List.insertionSort scoreLE acc.1) connectionPerHost, acc.2)

/-- The score list `rendezvousHash` computes for a snapshot: each address
paired with the FNV-1 digest of the salt followed by the address. -/
def scoredList (addresses : List Bytes) (salt : Bytes) : List hostScore :=
  addresses.map (fun a => ⟨a, fnv1 (salt ++ a)⟩)

/-! ### Structural lemmas about `rendezvousHash` -/

/-- The digest computed by `hashAddr` is the FNV-1 hash of the salt (`key`)
concatenated with the address (`node`), independent of the incoming hasher
state, because `Reset` runs first and the salt is written first. -/
theorem hashAddr_fst (h : Hasher) (node key : Bytes) :
    (hashAddr h node key).1 = fnv1 (key ++ node) := by
  simp [hashAddr, Hasher.reset, Hasher.write, Hasher.sum32, fnv1, fnvWrite,
    List.foldl_append]

theorem foldHosts (addresses : List Bytes) (salt : Bytes) :
    ∀ (init : List hostScore) (h : Hasher),
      (addresses.foldl (scoreStep salt) (init, h)).1 = init ++ scoredList addresses salt := by
  induction addresses with
  | nil => intro init h; simp [scoredList]
  | cons a t ih =>
    intro init h
    rw [List.foldl_cons]
    show ((t.foldl (scoreStep salt) (scoreStep salt (init, h) a))).1 = _
    rw [scoreStep]
    rw [ih]
    simp [scoredList, hashAddr_fst]

/-- The output of `rendezvousHash` is the `connectionPerHost`-prefix of the
sorted score list; in particular it does not depend on the incoming state of
the shared hasher. -/
theorem rendezvousHash_fst (addresses : List Bytes) (salt : Bytes) (hasher : Hasher)
    (connectionPerHost : Nat) :
    (rendezvousHash addresses salt hasher connectionPerHost).1 =
      takeAddresses (List.insertionSort scoreLE (scoredList addresses salt))
        connectionPerHost := by
  show takeAddresses
      (List.insertionSort scoreLE (addresses.foldl (scoreStep salt) ([], hasher)).1)
      connectionPerHost = _
  rw [foldHosts, List.nil_append]

theorem takeAddresses_of_le (l : List hostScore) :
    ∀ (k : Nat), k ≤ l.length →
      takeAddresses l k = some ((l.map hostScore.address).take k) := by
  induction l with
  | nil =>
    intro k hk
    have : k = 0 := Nat.le_zero.mp hk
    subst this
    rfl
  | cons p t ih =>
    intro k hk
    cases k with
    | zero => rfl
    | succ k =>
      rw [takeAddresses, ih k (Nat.le_of_succ_le_succ hk)]
      simp

theorem takeAddresses_of_lt (l : List hostScore) :
    ∀ (k : Nat), l.length < k → takeAddresses l k = none := by
  induction l with
  | nil =>
    intro k hk
    cases k with
    | zero => exact absurd hk (Nat.lt_irrefl 0)
    | succ k => rfl
  | cons p t ih =>
    intro k hk
    cases k with
    | zero => exact absurd hk (Nat.not_lt_zero _)
    | succ k =>
      rw [takeAddresses, ih k (Nat.lt_of_succ_lt_succ hk)]
      rfl

/-! ### Claims about the rendezvous hashing computation -/

/-- Claim C5: for every fixed address list, salt, and size, two invocations of
`rendezvousHash` return the identical subset even though the 32-bit hash
object is shared and stateful across calls: whatever states the shared hasher
is in when the two calls start (in particular the state the first call left
behind), the outputs coincide, because the hasher is reset before each score
computation. -/
theorem rendezvousHash_deterministic (addresses : List Bytes) (salt : Bytes)
    (h1 h2 : Hasher) (connectionPerHost : Nat) :
    (rendezvousHash addresses salt h1 connectionPerHost).1 =
      (rendezvousHash addresses salt h2 connectionPerHost).1 := by
  rw [rendezvousHash_fst, rendezvousHash_fst]

/-- Claim C1 (code bug): the claim states that `rendezvousHash` returns
`min(K, |A|)` addresses and never faults when `|A| < K`, but the code
unconditionally reads `hosts[i]` for every `i < connectionPerHost`, so a
snapshot with fewer than `connectionPerHost` addresses makes it index past
the end of the slice — a runtime panic (`none`), where the claim demands the
available addresses.  Evaluated at the failing inputs `A = [], K = 1` and
`A = ["0:1"], K = 2`. -/
theorem rendezvousHash_undersized_faults :
    (rendezvousHash [] [] newHasher 1).1 = none ∧
      (rendezvousHash [[48, 58, 49]] [] newHasher 2).1 = none := by
  constructor <;> rfl

/-- Claim C2: when `connectionPerHost ≤ |addresses|`, `rendezvousHash` scores
each address with the 32-bit FNV-1 hash of the salt concatenated with the
address (salt bytes written first), sorts ascending by score, and returns the
first `connectionPerHost` addresses of that order. -/
theorem rendezvousHash_sorts_by_salted_hash (addresses : List Bytes) (salt : Bytes)
    (hasher : Hasher) (connectionPerHost : Nat)
    (hK : connectionPerHost ≤ addresses.length) :
    (rendezvousHash addresses salt hasher connectionPerHost).1 =
        some (((List.insertionSort scoreLE (scoredList addresses salt)).map
          hostScore.address).take connectionPerHost) ∧
      List.Sorted scoreLE (List.insertionSort scoreLE (scoredList addresses salt)) ∧
      (List.insertionSort scoreLE (scoredList addresses salt)).Perm
        (scoredList addresses salt) ∧
      scoredList addresses salt = addresses.map (fun a => ⟨a, fnv1 (salt ++ a)⟩) ∧
      ∀ (h : Hasher) (a : Bytes), (hashAddr h a salt).1 = fnv1 (salt ++ a) := by
  refine ⟨?_, List.sorted_insertionSort scoreLE _, List.perm_insertionSort scoreLE _, rfl,
    fun h a => hashAddr_fst h a salt⟩
  rw [rendezvousHash_fst]
  exact takeAddresses_of_le _ _ (by simpa [scoredList] using hK)

/-- Witness for C2 at the concrete snapshot `[[0], [1]]`, empty salt, `K = 2`. -/
theorem rendezvousHash_sorts_by_salted_hash_witness :
    (rendezvousHash [[0], [1]] [] newHasher 2).1 =
        some (((List.insertionSort scoreLE (scoredList [[0], [1]] [])).map
          hostScore.address).take 2) ∧
      List.Sorted scoreLE (List.insertionSort scoreLE (scoredList [[0], [1]] [])) ∧
      (List.insertionSort scoreLE (scoredList [[0], [1]] [])).Perm
        (scoredList [[0], [1]] []) ∧
      scoredList [[0], [1]] [] = [[0], [1]].map (fun a => ⟨a, fnv1 ([] ++ a)⟩) ∧
      ∀ (h : Hasher) (a : Bytes), (hashAddr h a []).1 = fnv1 ([] ++ a) :=
  rendezvousHash_sorts_by_salted_hash [[0], [1]] [] newHasher 2 (by decide)

/-! ### Erasing a non-selected entry -/

theorem take_erase_of_not_mem_take (x : hostScore) (l : List hostScore) :
    ∀ (k : Nat), x ∉ l.take k → (l.erase x).take k = l.take k := by
  induction l with
  | nil => intro k _; rfl
  | cons a t ih =>
    intro k hk
    cases k with
    | zero => rfl
    | succ k =>
      rw [List.take_succ_cons] at hk
      have hxa : x ≠ a := fun h => hk (h ▸ List.mem_cons_self a _)
      have hxt : x ∉ t.take k := fun h => hk (List.mem_cons_of_mem a h)
      have hax : ¬(a == x) := by simp [Ne.symm hxa]
      rw [List.erase_cons_tail hax, List.take_succ_cons, List.take_succ_cons, ih k hxt]

/-- Scoring commutes with removing one address: the score list of a snapshot
with `a` removed is the score list of the full snapshot with the entry of `a`
removed. -/
theorem scoredList_erase (addresses : List Bytes) (salt a : Bytes) :
    scoredList (addresses.erase a) salt =
      (scoredList addresses salt).erase ⟨a, fnv1 (salt ++ a)⟩ := by
  induction addresses with
  | nil => rfl
  | cons b t ih =>
    have e2 : scoredList (b :: t) salt = ⟨b, fnv1 (salt ++ b)⟩ :: scoredList t salt := rfl
    by_cases hba : b = a
    · subst hba
      rw [List.erase_cons_head, e2, List.erase_cons_head]
    · have h1 : ¬(b == a) := by simp [hba]
      have h2 : ¬((⟨b, fnv1 (salt ++ b)⟩ : hostScore) == ⟨a, fnv1 (salt ++ a)⟩) := by
        simp [hostScore.mk.injEq, hba]
      have e1 : scoredList (b :: t.erase a) salt =
          ⟨b, fnv1 (salt ++ b)⟩ :: scoredList (t.erase a) salt := rfl
      rw [List.erase_cons_tail h1, e1, e2, List.erase_cons_tail h2, ih]

/-- Two sorted lists that are permutations of each other are equal when the
score determines the element among the members. -/
theorem sorted_perm_eq_of_injective_scores :
    ∀ {l1 l2 : List hostScore}, l1.Perm l2 → l1.Sorted scoreLE → l2.Sorted scoreLE →
      (∀ p ∈ l1, ∀ q ∈ l1, p.score = q.score → p = q) → l1 = l2 := by
  intro l1
  induction l1 with
  | nil =>
    intro l2 hp _ _ _
    exact hp.symm.eq_nil.symm
  | cons a t1 ih =>
    intro l2 hp hs1 hs2 hinj
    cases l2 with
    | nil => exact absurd hp.eq_nil (by simp)
    | cons b t2 =>
      have hab : a = b := by
        have hma : a ∈ b :: t2 := hp.mem_iff.mp (List.mem_cons_self a t1)
        rcases List.mem_cons.mp hma with h | h
        · exact h
        · have hba : scoreLE b a := List.rel_of_sorted_cons hs2 a h
          have hmb : b ∈ a :: t1 := (hp.symm).mem_iff.mp (List.mem_cons_self b t2)
          rcases List.mem_cons.mp hmb with h' | h'
          · exact h'.symm
          · have hab' : scoreLE a b := List.rel_of_sorted_cons hs1 b h'
            exact hinj a (List.mem_cons_self a t1) b (List.mem_cons_of_mem a h')
              (Nat.le_antisymm hab' hba)
      subst hab
      have ht : t1.Perm t2 := hp.cons_inv
      have := ih ht hs1.of_cons hs2.of_cons
        (fun p hp' q hq' he =>
          hinj p (List.mem_cons_of_mem a hp') q (List.mem_cons_of_mem a hq') he)
      rw [this]

/-! ### The actual small-slice `sort.Sort` of this repository's Go toolchain -/

/-- Fallback element for slice reads; every read below is in range. -/
def dummyHost : hostScore := ⟨[], 0⟩

/-- `data.Swap(i, j)` on a slice of `hostScore`. -/
def goSwap (l : List hostScore) (i j : Nat) : List hostScore :=
  (l.set i (l.getD j dummyHost)).set j (l.getD i dummyHost)

/-- `hostScores.Less(i, j) = s[i].score < s[j].score`. -/
def goLess (l : List hostScore) (i j : Nat) : Bool :=
  (l.getD i dummyHost).score < (l.getD j dummyHost).score

/-- The inner loop of Go `sort.insertionSort`:
`for j := i; j > a && data.Less(j, j-1); j-- { data.Swap(j, j-1) }`. -/
def goInsertInner : Nat → List hostScore → List hostScore
  | 0, l => l
  | j + 1, l =>
    if goLess l (j + 1) j then goInsertInner j (goSwap l (j + 1) j) else l

/-- Go `sort.insertionSort(data, 0, n)`; the `i = 0` iteration is vacuous,
matching the source, where `i` starts at `a + 1`. -/
def goInsertionSort (l : List hostScore) : List hostScore :=
  (List.range l.length).foldl (fun acc i => goInsertInner i acc) l

/-- The gap-6 Shell pass Go `sort.quickSort` runs for `b - a ≤ 12`:
`for i := a + 6; i < b; i++ { if data.Less(i, i-6) { data.Swap(i, i-6) } }`. -/
def goShellPass (l : List hostScore) : List hostScore :=
  (List.range l.length).foldl
    (fun acc i =>
      if 6 ≤ i then (if goLess acc i (i - 6) then goSwap acc i (i - 6) else acc) else acc)
    l

/-- Go's `sort.Sort` as implemented by the toolchains this repository builds
with (the classic `sort.go` of go1.x before 1.19; the build images pin
go1.15): for a slice of at most 12 elements the `for b-a > 12` partition
loop of `quickSort` never runs, and `Sort` is exactly one gap-6 Shell pass
followed by insertion sort.  This definition is that code path, exact for
`sort.Sort(hosts)` on snapshots of at most 12 addresses.  The Shell pass can
move an element past entries with equal scores, so this sort is not stable
for slices of more than six elements (for at most six it coincides with the
stable `List.insertionSort` model used above). -/
def goSortSmall (l : List hostScore) : List hostScore :=
  goInsertionSort (goShellPass l)

/-- The output of `rendezvousHash` with `sort.Sort(hosts)` evaluated by the
actual small-slice algorithm `goSortSmall` (exact for snapshots of at most
12 addresses); the score list and the output-filling loop are the ones
established above (`foldHosts`, `rendezvousHash_fst`). -/
def rendezvousHashGoSmall (addresses : List Bytes) (salt : Bytes)
    (connectionPerHost : Nat) : Option (List Bytes) :=
  takeAddresses (goSortSmall (scoredList addresses salt)) connectionPerHost

/-- Claim C6 counterexample: the claim fails on the program.  The addresses
`[177,109,236,180]` and `[213,20,248,173]` have colliding FNV-1 scores under
the empty salt.  In the seven-address snapshot below (`K = 5`), Go's
`sort.Sort` runs the gap-6 Shell pass, which moves the low-scoring seventh
address past the first member of the tied pair; the tied pair therefore ends
up in reversed order, and the output selects `[213,20,248,173]`.  Removing
`[18, 0]` — an address of the snapshot that is not in the selected subset —
leaves six addresses, for which the Shell pass is vacuous and the stable
insertion sort keeps the tied pair in input order: the output now selects
`[177,109,236,180]` instead.  Removing a non-selected address thus changed
the selected subset, refuting the claim as stated. -/
theorem rendezvousHash_minimal_disruption_counterexample :
    (5 : Nat) <
        ([[177, 109, 236, 180], [0], [1], [213, 20, 248, 173], [18, 0], [2], [3]] :
          List Bytes).length ∧
      ([18, 0] : Bytes) ∈
        ([[177, 109, 236, 180], [0], [1], [213, 20, 248, 173], [18, 0], [2], [3]] :
          List Bytes) ∧
      rendezvousHashGoSmall
          [[177, 109, 236, 180], [0], [1], [213, 20, 248, 173], [18, 0], [2], [3]] [] 5 =
        some [[3], [2], [1], [0], [213, 20, 248, 173]] ∧
      ([18, 0] : Bytes) ∉ [[3], [2], [1], [0], ([213, 20, 248, 173] : Bytes)] ∧
      rendezvousHashGoSmall
          (([[177, 109, 236, 180], [0], [1], [213, 20, 248, 173], [18, 0], [2], [3]] :
            List Bytes).erase [18, 0]) [] 5 =
        some [[3], [2], [1], [0], [177, 109, 236, 180]] ∧
      rendezvousHashGoSmall
          (([[177, 109, 236, 180], [0], [1], [213, 20, 248, 173], [18, 0], [2], [3]] :
            List Bytes).erase [18, 0]) [] 5 ≠
        rendezvousHashGoSmall
          [[177, 109, 236, 180], [0], [1], [213, 20, 248, 173], [18, 0], [2], [3]] [] 5 := by
  decide

/-- Claim C6 as amended: for a snapshot with more than `connectionPerHost`
addresses in which no two distinct addresses have colliding scores, removing
one address that is not in the selected subset leaves the selected subset
unchanged.  The no-collision hypothesis is what the counterexample forces:
with it, the sorted score list is the unique sorted permutation
(`sorted_perm_eq_of_injective_scores`), so the conclusion does not depend on
the tie behaviour of `sort.Sort` and holds for the program; without it, the
Shell pass of the seven-address counterexample above reorders the tie at the
`K`-boundary. -/
theorem rendezvousHash_minimal_disruption_of_injective_scores
    (addresses : List Bytes) (salt a : Bytes) (h1 h2 : Hasher)
    (connectionPerHost : Nat) (out : List Bytes)
    (hinj : ∀ x ∈ addresses, ∀ y ∈ addresses, fnv1 (salt ++ x) = fnv1 (salt ++ y) → x = y)
    (hK : connectionPerHost < addresses.length)
    (ha : a ∈ addresses)
    (hout : (rendezvousHash addresses salt h1 connectionPerHost).1 = some out)
    (hnot : a ∉ out) :
    (rendezvousHash (addresses.erase a) salt h2 connectionPerHost).1 = some out := by
  have hSlen : (List.insertionSort scoreLE (scoredList addresses salt)).length
      = addresses.length := by simp [scoredList]
  rw [rendezvousHash_fst, takeAddresses_of_le _ _ (by rw [hSlen]; exact le_of_lt hK)] at hout
  have hout' := Option.some.inj hout
  have hmem : (⟨a, fnv1 (salt ++ a)⟩ : hostScore) ∈
      List.insertionSort scoreLE (scoredList addresses salt) := by
    rw [List.mem_insertionSort]
    exact List.mem_map_of_mem _ ha
  have hkey : List.insertionSort scoreLE (scoredList (addresses.erase a) salt) =
      (List.insertionSort scoreLE (scoredList addresses salt)).erase
        ⟨a, fnv1 (salt ++ a)⟩ := by
    apply sorted_perm_eq_of_injective_scores
    · have p2 : (scoredList (addresses.erase a) salt).Perm
          ((List.insertionSort scoreLE (scoredList addresses salt)).erase
            ⟨a, fnv1 (salt ++ a)⟩) := by
        rw [scoredList_erase addresses salt a]
        exact ((List.perm_insertionSort scoreLE (scoredList addresses salt)).symm).erase
          ⟨a, fnv1 (salt ++ a)⟩
      exact (List.perm_insertionSort scoreLE _).trans p2
    · exact List.sorted_insertionSort scoreLE _
    · exact List.Pairwise.sublist
        (List.erase_sublist ⟨a, fnv1 (salt ++ a)⟩
          (List.insertionSort scoreLE (scoredList addresses salt)))
        (List.sorted_insertionSort scoreLE _)
    · intro p hp q hq he
      rw [List.mem_insertionSort] at hp hq
      simp only [scoredList] at hp hq
      obtain ⟨x1, hx1, rfl⟩ := List.mem_map.mp hp
      obtain ⟨y1, hy1, rfl⟩ := List.mem_map.mp hq
      rw [hinj x1 (List.mem_of_mem_erase hx1) y1 (List.mem_of_mem_erase hy1) he]
  have hnotin : (⟨a, fnv1 (salt ++ a)⟩ : hostScore) ∉
      (List.insertionSort scoreLE (scoredList addresses salt)).take connectionPerHost := by
    intro hmemtake
    apply hnot
    rw [← hout', ← List.map_take]
    exact List.mem_map_of_mem hostScore.address hmemtake
  have hlen2 : connectionPerHost ≤
      ((List.insertionSort scoreLE (scoredList addresses salt)).erase
        ⟨a, fnv1 (salt ++ a)⟩).length := by
    rw [List.length_erase_of_mem hmem, hSlen]
    omega
  rw [rendezvousHash_fst, hkey, takeAddresses_of_le _ _ hlen2,
    ← List.map_take, take_erase_of_not_mem_take _ _ _ hnotin, List.map_take, hout']

/-- Witness for the amended C6: the snapshot `[[0], [1], [2]]` with empty
salt has three pairwise distinct scores and selects `[[2], [1]]` at `K = 2`;
removing the unselected address `[0]` leaves the selection unchanged. -/
theorem rendezvousHash_minimal_disruption_of_injective_scores_witness :
    (rendezvousHash (([[0], [1], [2]] : List Bytes).erase [0]) [] newHasher 2).1 =
      some [[2], [1]] :=
  rendezvousHash_minimal_disruption_of_injective_scores [[0], [1], [2]] [] [0] newHasher
    newHasher 2 [[2], [1]] (by decide) (by decide) (by decide) (by decide) (by decide)

/-! ### Tie-breaking -/

/-- Claim C8 counterexample: the code applies no tie-break rule beyond input
position.  The two addresses `[177, 109, 236, 180]` and `[213, 20, 248, 173]`
have colliding FNV-1 scores under the empty salt; two snapshots containing
exactly these two addresses in the two possible orders, with the same salt
and `K = 1`, select different subsets — refuting the claim as stated. -/
theorem rendezvousHash_tie_break_counterexample :
    ([[177, 109, 236, 180], [213, 20, 248, 173]] : List Bytes).Perm
        [[213, 20, 248, 173], [177, 109, 236, 180]] ∧
      fnv1 ([] ++ [177, 109, 236, 180]) = fnv1 ([] ++ [213, 20, 248, 173]) ∧
      (rendezvousHash [[177, 109, 236, 180], [213, 20, 248, 173]] [] newHasher 1).1 ≠
        (rendezvousHash [[213, 20, 248, 173], [177, 109, 236, 180]] [] newHasher 1).1 :=
  ⟨List.Perm.swap _ _ _, by decide, by decide⟩

/-- Claim C8 as amended: the selection is deterministic for a fixed input
order, but ties between colliding scores are broken by input position; when
no two distinct addresses of the snapshot have colliding scores, any two
snapshots containing the same set of addresses (in any input order), with
the same salt and `K`, select the same subset. -/
theorem rendezvousHash_perm_invariant_of_injective_scores
    (A1 A2 : List Bytes) (salt : Bytes) (h1 h2 : Hasher) (connectionPerHost : Nat)
    (hperm : A1.Perm A2)
    (hinj : ∀ x ∈ A1, ∀ y ∈ A1, fnv1 (salt ++ x) = fnv1 (salt ++ y) → x = y) :
    (rendezvousHash A1 salt h1 connectionPerHost).1 =
      (rendezvousHash A2 salt h2 connectionPerHost).1 := by
  rw [rendezvousHash_fst, rendezvousHash_fst]
  have hsorteq : List.insertionSort scoreLE (scoredList A1 salt) =
      List.insertionSort scoreLE (scoredList A2 salt) := by
    apply sorted_perm_eq_of_injective_scores
    · exact (List.perm_insertionSort scoreLE _).trans
        ((hperm.map _).trans (List.perm_insertionSort scoreLE _).symm)
    · exact List.sorted_insertionSort scoreLE _
    · exact List.sorted_insertionSort scoreLE _
    · intro p hp q hq he
      rw [List.mem_insertionSort] at hp hq
      simp only [scoredList] at hp hq
      obtain ⟨x, hx, rfl⟩ := List.mem_map.mp hp
      obtain ⟨y, hy, rfl⟩ := List.mem_map.mp hq
      have hxy := hinj x hx y hy he
      rw [hxy]
  rw [hsorteq]

/-- Witness for the amended C8: the snapshots `[[0], [1]]` and `[[1], [0]]`
hold the same two addresses, whose scores under the empty salt differ, and
both select the same subset at `K = 1`. -/
theorem rendezvousHash_perm_invariant_witness :
    (rendezvousHash [[0], [1]] [] newHasher 1).1 =
      (rendezvousHash [[1], [0]] [] newHasher 1).1 :=
  rendezvousHash_perm_invariant_of_injective_scores [[0], [1]] [[1], [0]] [] newHasher
    newHasher 1 (List.Perm.swap _ _ _) (by decide)

/-! ### Resolver lifecycle (`New`, `Build`, `Close`) as explicit state passing -/

/-- A `resolver.Address` (`resolver.Address{Addr: instance}`). -/
structure RAddr where
  addr : Bytes
deriving DecidableEq

/-- `generateAddresses`: start from the nil slice and append
`resolver.Address{Addr: instance}` for each instance, in order. -/
def generateAddresses (instances : List Bytes) : List RAddr :=
  instances.foldl (fun addrs inst => addrs ++ [⟨inst⟩]) []

/-- A Go channel carrying snapshot updates: its buffered contents and its
closed flag. -/
structure GoChan where
  buf : List (List Bytes)
  closed : Bool
deriving DecidableEq

/-- `close(ch)`: closing an already-closed channel is a Go runtime panic,
modelled by `none`. -/
def closeChan (c : GoChan) : Option GoChan :=
  if c.closed then none else some { c with closed := true }

/-- The observable state of a `Resolver`: its notification channel, whether
its channel is registered with the notifier, the log of address sets passed
to `cc.UpdateState` (most recent last), the `WaitGroup` counter, and the
number of watcher tasks spawned. -/
structure ResolverState where
  discoCh : GoChan
  registered : Bool
  published : List (List RAddr)
  wg : Nat
  watchers : Nat
deriving DecidableEq

/-- The state `New` leaves behind: an open empty channel registered with the
notifier, nothing published, no watcher started. -/
def newResolver : ResolverState :=
  { discoCh := ⟨[], false⟩, registered := true, published := [], wg := 0, watchers := 0 }

/-- The result of `Discoverer.Instances()`: a snapshot, or an error. -/
inductive DiscoOutcome where
  | ok (instances : List Bytes)
  | fail (e : GoErr)
deriving DecidableEq

/-- `Build`: call `Instances()`; on error return it, touching nothing else;
on success publish `generateAddresses(instances)` unfiltered, `wg.Add(1)`,
and spawn one watcher task. -/
def build (d : DiscoOutcome) (s : ResolverState) : Option GoErr × ResolverState :=
  match d with
  | .fail e => (some e, s)
  | .ok instances =>
    (none, { s with published := s.published ++ [generateAddresses instances],
                    wg := s.wg + 1, watchers := s.watchers + 1 })

/-- `Close`: unregister the channel from the notifier, `close(r.discoCh)`
(a runtime panic if it is already closed — `none`), and `wg.Wait()` until
the watcher has exited. -/
def closeResolver (s : ResolverState) : Option ResolverState :=
  match closeChan s.discoCh with
  | none => none
  | some ch => some { s with registered := false, discoCh := ch, wg := 0 }

/-- Claim C10: `generateAddresses` maps every instance list to an address
list of the same length and order, each element wrapping the corresponding
instance string; the empty instance list yields the empty (nil) address
list. -/
theorem generateAddresses_maps_instances (instances : List Bytes) :
    generateAddresses instances = instances.map RAddr.mk ∧
      (generateAddresses instances).length = instances.length ∧
      generateAddresses [] = [] := by
  have key : ∀ (l : List Bytes) (init : List RAddr),
      l.foldl (fun addrs inst => addrs ++ [⟨inst⟩]) init = init ++ l.map RAddr.mk := by
    intro l
    induction l with
    | nil => intro init; simp
    | cons b t ih => intro init; simp [ih]
  refine ⟨?_, ?_, rfl⟩
  · simpa using key instances []
  · rw [show generateAddresses instances = instances.map RAddr.mk by simpa using key instances []]
    exact List.length_map instances RAddr.mk

/-- Claim C4: if `Instances()` fails, `Build` returns exactly that error and
the resolver state is untouched — nothing is published and no watcher task
is started; a subsequent `Close()` on the still-open channel succeeds. -/
theorem build_error_propagates (e : GoErr) (s : ResolverState)
    (hopen : s.discoCh.closed = false) :
    build (.fail e) s = (some e, s) ∧ (closeResolver s).isSome = true := by
  refine ⟨rfl, ?_⟩
  simp [closeResolver, closeChan, hopen]

/-- Witness for C4 on the freshly constructed resolver. -/
theorem build_error_propagates_witness :
    build (.fail 7) newResolver = (some 7, newResolver) ∧
      (closeResolver newResolver).isSome = true :=
  build_error_propagates 7 newResolver rfl

/-- Claim C7: if `Instances()` succeeds, `Build` publishes exactly the raw
list `generateAddresses(instances)` — of the same length as the snapshot,
with no hashing and no cap at `connectionPerHost` — and starts exactly one
watcher task. -/
theorem build_success_publishes_raw (instances : List Bytes) (s : ResolverState) :
    build (.ok instances) s =
        (none, { s with published := s.published ++ [generateAddresses instances],
                        wg := s.wg + 1, watchers := s.watchers + 1 }) ∧
      (generateAddresses instances).length = instances.length := by
  exact ⟨rfl, (generateAddresses_maps_instances instances).2.1⟩

/-- Claim C3 (code bug): the claim states that a second `Close()` must not
panic, but `Close` unconditionally executes `close(r.discoCh)`, and closing
an already-closed channel is a Go runtime panic.  Evaluated on the lifecycle
`New(); Build(ok); Close(); Close()`: the first `Close` succeeds, the second
faults. -/
theorem resolver_close_twice_faults :
    (closeResolver (build (.ok [[48, 58, 49]]) newResolver).2).isSome = true ∧
      ((closeResolver (build (.ok [[48, 58, 49]]) newResolver).2).bind closeResolver)
        = none := by
  exact ⟨rfl, rfl⟩

/-! ### Shutdown: the watcher/closer interleaving as a transition system -/

/-- Program counter of the watcher task: blocked on the channel receive
(`loop`), about to publish a received snapshot (`publish`), or exited with
`wg.Done()` executed (`done`). -/
inductive WatPC where
  | loop
  | publish (msg : List Bytes)
  | done
deriving DecidableEq

/-- Program counter of the task running `Close()`: not yet called (`idle`),
after `notifier.Unregister` (`unregistered`), after `close(r.discoCh)`
(`chanClosed`), and after `wg.Wait()` returned (`returned`). -/
inductive CloPC where
  | idle
  | unregistered
  | chanClosed
  | returned
deriving DecidableEq

/-- An interleaving configuration: the channel, the `WaitGroup` counter, the
two program counters, and the number of `cc.UpdateState` calls made by the
watcher. -/
structure Config where
  chBuf : List (List Bytes)
  chClosed : Bool
  wg : Nat
  wat : WatPC
  clo : CloPC
  pubs : Nat
deriving DecidableEq

/-- One interleaved step of the notifier, the watcher task, or the closer:

* `notify` — before `Close` begins, the notifier may send a snapshot on the
  open channel;
* `recvMsg` — the watcher receives a buffered snapshot;
* `recvClosed` — the channel is closed and drained, so the watcher's range
  loop ends and the deferred `wg.Done()` runs;
* `doPublish` — the watcher publishes the received snapshot under the lock;
* `unregister` / `closeCh` — the two first statements of `Close()`
  (the channel is open here: `Close` has not run before);
* `waitDone` — `wg.Wait()` returns, which requires the counter to be zero. -/
inductive Step : Config → Config → Prop where
  | notify (c : Config) (m : List Bytes) :
      c.clo = CloPC.idle → c.chClosed = false →
      Step c { c with chBuf := c.chBuf ++ [m] }
  | recvMsg (c : Config) (m : List Bytes) (rest : List (List Bytes)) :
      c.wat = WatPC.loop → c.chBuf = m :: rest →
      Step c { c with chBuf := rest, wat := WatPC.publish m }
  | recvClosed (c : Config) :
      c.wat = WatPC.loop → c.chBuf = [] → c.chClosed = true →
      Step c { c with wat := WatPC.done, wg := c.wg - 1 }
  | doPublish (c : Config) (m : List Bytes) :
      c.wat = WatPC.publish m →
      Step c { c with wat := WatPC.loop, pubs := c.pubs + 1 }
  | unregister (c : Config) :
      c.clo = CloPC.idle →
      Step c { c with clo := CloPC.unregistered }
  | closeCh (c : Config) :
      c.clo = CloPC.unregistered → c.chClosed = false →
      Step c { c with chClosed := true, clo := CloPC.chanClosed }
  | waitDone (c : Config) :
      c.clo = CloPC.chanClosed → c.wg = 0 →
      Step c { c with clo := CloPC.returned }

/-- The configuration right after a successful `Build`: the watcher is in
its receive loop, `wg = 1`, `Close` has not been called, and the channel is
open with arbitrary buffered snapshots. -/
def initConfig (buf0 : List (List Bytes)) : Config :=
  { chBuf := buf0, chClosed := false, wg := 1, wat := WatPC.loop,
    clo := CloPC.idle, pubs := 0 }

/-- Configurations reachable from some post-`Build` configuration. -/
inductive Reach : Config → Prop where
  | init (buf0 : List (List Bytes)) : Reach (initConfig buf0)
  | step {c c' : Config} : Reach c → Step c c' → Reach c'

/-- Invariant: the `WaitGroup` counter is `1` until the watcher runs its
deferred `wg.Done()` and `0` afterwards; and `wg.Wait()` can only have
returned once the watcher is done. -/
theorem reach_invariant {c : Config} (h : Reach c) :
    (c.wg = if c.wat = WatPC.done then 0 else 1) ∧
      (c.clo = CloPC.returned → c.wat = WatPC.done) := by
  induction h with
  | init buf0 => exact ⟨rfl, fun h' => by cases h'⟩
  | @step c c' hr hs ih =>
    cases hs with
    | notify m h1 h2 => exact ih
    | recvMsg m rest h1 h2 =>
      constructor
      · show c.wg = if WatPC.publish m = WatPC.done then 0 else 1
        rw [ih.1, h1]
        simp
      · intro h'
        exact absurd (h1.symm.trans (ih.2 h')) (by simp)
    | recvClosed h1 h2 h3 =>
      constructor
      · show c.wg - 1 = if WatPC.done = WatPC.done then 0 else 1
        rw [if_pos rfl]
        have hwg := ih.1
        rw [h1] at hwg
        simp at hwg
        omega
      · intro _
        rfl
    | doPublish m h1 =>
      constructor
      · show c.wg = if WatPC.loop = WatPC.done then 0 else 1
        rw [ih.1, h1]
        simp
      · intro h'
        exact absurd (h1.symm.trans (ih.2 h')) (by simp)
    | unregister h1 => exact ⟨ih.1, fun h' => by cases h'⟩
    | closeCh h1 h2 => exact ⟨ih.1, fun h' => by cases h'⟩
    | waitDone h1 h2 =>
      refine ⟨ih.1, fun _ => ?_⟩
      by_cases hw : c.wat = WatPC.done
      · exact hw
      · have hwg := ih.1
        rw [if_neg hw] at hwg
        exact absurd (hwg.symm.trans h2) (by simp)

/-- Claim C9: once `Close()` has returned, the watcher task has executed its
deferred `wg.Done()` (it observed queue closure and exited, joined by
`wg.Wait()`), and the system is quiescent: no step at all — in particular no
publish and no state access by the watcher — is possible any more. -/
theorem close_joins_watcher {c : Config} (h : Reach c)
    (hret : c.clo = CloPC.returned) :
    c.wat = WatPC.done ∧ ∀ c' : Config, ¬Step c c' := by
  refine ⟨(reach_invariant h).2 hret, ?_⟩
  intro c' hs
  cases hs with
  | notify m h1 h2 => rw [hret] at h1; cases h1
  | recvMsg m rest h1 h2 =>
    rw [(reach_invariant h).2 hret] at h1
    cases h1
  | recvClosed h1 h2 h3 =>
    rw [(reach_invariant h).2 hret] at h1
    cases h1
  | doPublish m h1 =>
    rw [(reach_invariant h).2 hret] at h1
    cases h1
  | unregister h1 => rw [hret] at h1; cases h1
  | closeCh h1 h2 => rw [hret] at h1; cases h1
  | waitDone h1 h2 => rw [hret] at h1; cases h1

/-- Witness for C9: the concrete shutdown trace `unregister`, `closeCh`,
`recvClosed`, `waitDone` from the empty-buffer post-`Build` configuration
reaches a configuration with `Close` returned, which has the watcher done
and is quiescent. -/
theorem close_joins_watcher_witness :
    (Config.mk [] true 0 WatPC.done CloPC.returned 0).wat = WatPC.done ∧
      ∀ c' : Config, ¬Step (Config.mk [] true 0 WatPC.done CloPC.returned 0) c' := by
  refine close_joins_watcher ?_ rfl
  have s1 : Reach (initConfig []) := Reach.init []
  have s2 : Reach { initConfig [] with clo := CloPC.unregistered } :=
    s1.step (Step.unregister (initConfig []) rfl)
  have s3 : Reach { initConfig [] with chClosed := true, clo := CloPC.chanClosed } :=
    s2.step (Step.closeCh { initConfig [] with clo := CloPC.unregistered } rfl rfl)
  have s4 : Reach (Config.mk [] true 0 WatPC.done CloPC.chanClosed 0) :=
    s3.step (Step.recvClosed
      { initConfig [] with chClosed := true, clo := CloPC.chanClosed } rfl rfl rfl)
  exact s4.step (Step.waitDone (Config.mk [] true 0 WatPC.done CloPC.chanClosed 0) rfl rfl)
